import Mathlib

/-!
Verification of the `pyrdmp` Dynamic Movement Primitive engine
(`src/pyrdmp/dmp.py`) against its natural-language specification.

The embedding is shallow: numpy float arrays become `List ℝ`, scalars
become `ℝ`, and the in-place numpy semantics that matter to the claims
(the `a = w; a += ...` aliasing in `adapt`) are tracked by an explicit
ghost field holding the post-call content of the aliased buffer.
Python indexing errors (such as `c[1]` on a one-element array in
`distributions`) are modelled by `Option`.
-/

namespace Pyrdmp

/-- The `DynamicMovementPrimitive` constructor state: gain `a`, number of
Gaussians `ng`, stabilization flag `stb`, obstacle flag `obs` and the two
obstacle parameters.  The gains `b` and `as_deg` are derived, below. -/
structure DMP where
  a : ℝ
  ng : ℕ
  stb : Bool
  obs : Bool
  obs_gamma : ℝ
  obs_beta : ℝ

/-- `self.b = _a/4` in `__init__`. -/
noncomputable def DMP.b (d : DMP) : ℝ := d.a / 4

/-- `self.as_deg = _a/3` in `__init__`. -/
noncomputable def DMP.as_deg (d : DMP) : ℝ := d.a / 3

/-- `phase`: `np.exp((-self.as_deg) * np.linspace(0, 1.0, len(time)))`.
`np.linspace(0, 1, N)` is `i/(N-1)` for `N ≥ 2`, `[0]` for `N = 1`
(our `0/(1-1) = 0` convention coincides), `[]` for `N = 0`. -/
noncomputable def phase (d : DMP) (time : List ℝ) : List ℝ :=
  (List.range time.length).map
    (fun i : ℕ => Real.exp (-d.as_deg * ((i : ℝ) / ((time.length : ℝ) - 1))))

/-- Modelled from the spec: the Gaussian kernel `psi` imported from
`pyrdmp.utils`, which is not part of the sources; the spec describes it as
"the Gaussian kernel centered at each scaled center with bandwidth h".
No claim depends on its exact shape. -/
noncomputable def psi (h c s : ℝ) : ℝ := Real.exp (-h * (s - c) ^ 2)

/-- `np.linspace(lo, hi, n)`: `n` evenly spaced points from `lo` to `hi`
inclusive; a single point is `[lo]`, zero points is `[]`. -/
noncomputable def linspaceL (lo hi : ℝ) (n : ℕ) : List ℝ :=
  if n = 1 then [lo]
  else (List.range n).map (fun i : ℕ => lo + (hi - lo) * (i : ℝ) / ((n : ℝ) - 1))

/-- `distributions`: centers `c = np.linspace(min(s), max(s), ng)`,
spacing `d = c[1] - c[0]`, `c /= d`, then the `ng × len(s)` matrix of
`psi(h, c_scaled, s/d)` values.  Python's `min`/`max` raise on an empty
sequence and `c[1]` raises `IndexError` when `c` has fewer than two
entries (i.e. when `ng < 2`); both error paths are `none`. -/
noncomputable def distributions (d : DMP) (s : List ℝ) (h : ℝ) : Option (List (List ℝ)) :=
  match s.min?, s.max? with
  | some lo, some hi =>
      let c := linspaceL lo hi d.ng
      match c.get? 1, c.get? 0 with
      | some c1, some c0 =>
          let dd := c1 - c0
          some ((c.map (· / dd)).map (fun cc => s.map (fun sv => psi h cc (sv / dd))))
      | _, _ => none
  | _, _ => none

/-- `reward(goal, position, time, tau, w=0.9, threshold=0.01)`:
`dist = goal - position`; near the end of the trajectory
(`|time - tau| < threshold`) it is `w * exp(-sqrt(dist*dist))`,
otherwise `(1-w) * exp(-sqrt(dist*dist)) / tau`. -/
noncomputable def reward (goal position time tau w threshold : ℝ) : ℝ :=
  let dist := goal - position
  if |time - tau| < threshold then
    w * Real.exp (-Real.sqrt (dist * dist))
  else
    (1 - w) * Real.exp (-Real.sqrt (dist * dist)) / tau

/-- Euclidean norm of a vector, `np.linalg.norm`. -/
noncomputable def normE (v : List ℝ) : ℝ := Real.sqrt ((v.map (fun t => t * t)).sum)

/-- Dot product of two vectors, `np.dot`. -/
noncomputable def dotL (u v : List ℝ) : ℝ := (List.zipWith (· * ·) u v).sum

/-- Componentwise difference `u - v`. -/
noncomputable def vsub (u v : List ℝ) : List ℝ := List.zipWith (· - ·) u v

/-- Componentwise sum `u + v`. -/
noncomputable def vecAdd (u v : List ℝ) : List ℝ := List.zipWith (· + ·) u v

/-- `avoid_obstacles(x, dx, g, obstacles)`: starts from `p = zeros(x.shape)`;
for each obstacle (first three coordinates only, `obstacles[:,:3]`), when
`norm(dx) > 0.00005` it computes the angle `phi` between `dx` and `o - x`
(negated when their dot product is negative), the scalar
`dphi = obs_gamma * phi * exp(-obs_beta*|phi|)` (zeroed when the obstacle is
farther than the goal), and performs `p += dphi` — a numpy broadcast that
adds the *scalar* `dphi` to every component of `p`.  `obstStep` is the
body of the `for o in obstacles[:,:3]` loop. -/
noncomputable def obstStep (d : DMP) (x dx g : List ℝ) (p o3 : List ℝ) : List ℝ :=
  if normE dx > 0.00005 then
    let o := o3.take 3
    let dp := dotL dx (vsub o x)
    let raw := Real.arccos (dp / (normE (vsub o x) * normE dx))
    let phi := if dp < 0 then -raw else raw
    let dphi := d.obs_gamma * phi * Real.exp (-d.obs_beta * |phi|)
    let dphi2 := if normE (vsub o x) > normE (vsub g x) then 0 else dphi
    p.map (fun comp => comp + dphi2)
  else p

/-- `avoid_obstacles` folds `obstStep` over the obstacle list, starting
from `p = np.zeros(x.shape)`. -/
noncomputable def avoid_obstacles (d : DMP) (x dx g : List ℝ) (obstacles : List (List ℝ)) :
    List ℝ :=
  obstacles.foldl (obstStep d x dx g) (x.map (fun _ => (0 : ℝ)))

/-- `imitate(x, dx, ddx, time, s, psv)` for a 1-D (scalar-per-sample)
trajectory.  `g = x[-1]`, `x0 = x[0]`, `tau = time[-1]`; for each sample
`f_target[i] = tau^2*ddx[i] - a*(b*(g - x[i]) - tau*dx[i]) + mod` with
`mod = b*(g-x0)*s[i]` and `sigma[i] = (g-x0)*s[i]` when `stb`, else
`mod = 0`, `sigma[i] = s[i]`; then one regression weight per basis row:
`sigma.T.dot(diag(p)).dot(f_target) / sigma.T.dot(diag(p)).dot(sigma)`. -/
noncomputable def imitate (d : DMP) (x dx ddx time s : List ℝ)
    (psv : List (List ℝ)) : List ℝ × List ℝ :=
  let g := x.getLastD 0
  let x0 := x.headD 0
  let tau := time.getLastD 0
  let f_target := (List.range time.length).map (fun i =>
    tau ^ 2 * ddx.getD i 0 - d.a * (d.b * (g - x.getD i 0) - tau * dx.getD i 0)
      + (if d.stb then d.b * (g - x0) * s.getD i 0 else 0))
  let sigma := (List.range time.length).map (fun i =>
    if d.stb then (g - x0) * s.getD i 0 else s.getD i 0)
  let w := psv.map (fun p =>
    ((List.range time.length).map
      (fun i => sigma.getD i 0 * p.getD i 0 * f_target.getD i 0)).sum /
    ((List.range time.length).map
      (fun i => sigma.getD i 0 * p.getD i 0 * sigma.getD i 0)).sum)
  (f_target, w)

/-- One basis-weighted forcing numerator `Σ_j psv[j][i]*w[j]` of `generate`. -/
noncomputable def pSumAt (d : DMP) (w : List ℝ) (psv : List (List ℝ)) (i : ℕ) : ℝ :=
  ((List.range d.ng).map (fun j => (psv.getD j []).getD i 0 * w.getD j 0)).sum

/-- The normalizer `Σ_j psv[j][i]` of `generate`. -/
noncomputable def pDivAt (d : DMP) (psv : List (List ℝ)) (i : ℕ) : ℝ :=
  ((List.range d.ng).map (fun j => (psv.getD j []).getD i 0)).sum

/-- The loop body of `generate`, as a recursion producing the remaining
`k` samples of `(ddx, dx, x)` from sample index `i` onward.  `dxr`/`xr`
are the integrator state `dx_r`/`x_r`; `xm`/`dxm` are the previously
*stored* array entries `x[i-1]`/`dx[i-1]` read by the obstacle branch
(the zero-initialized arrays make them `0` at `i = 0`). -/
noncomputable def genLoop (d : DMP) (w : List ℝ) (x0 g : ℝ) (time s : List ℝ)
    (psv : List (List ℝ)) (obstacles : List (List ℝ)) (tau : ℝ) :
    ℕ → ℝ → ℝ → ℝ → ℝ → ℕ → List ℝ × List ℝ × List ℝ
  | _, _, _, _, _, 0 => ([], [], [])
  | i, dxr, xr, xm, dxm, k + 1 =>
    let dt := if i = 0 then time.getD 0 0 else time.getD i 0 - time.getD (i - 1) 0
    let mod := if d.stb then d.b * (g - x0) * s.getD i 0 else 0
    let sig := if d.stb then (g - x0) * s.getD i 0 else s.getD i 0
    let frep := pSumAt d w psv i / pDivAt d psv i * sig
    let p := if d.obs then (avoid_obstacles d [xm] [dxm] [g] obstacles).getD 0 0 else 0
    let ddxr := (d.a * (d.b * (g - xr) - tau * dxr) + frep + mod + p) / tau ^ 2
    let dxr' := dxr + ddxr * dt
    let xr' := xr + dxr' * dt
    let rest := genLoop d w x0 g time s psv obstacles tau (i + 1) dxr' xr' xr' dxr' k
    (ddxr :: rest.1, dxr' :: rest.2.1, xr' :: rest.2.2)

/-- `generate(w, x0, g, time, s, psv, obstacles)` for a 1-D trajectory:
forward-Euler integration of the transformation system starting from
`dx_r = 0`, `x_r = x0`, with `tau = time[-1]`, returning the stored
`(ddx, dx, x)` sequences. -/
noncomputable def generate (d : DMP) (w : List ℝ) (x0 g : ℝ) (time s : List ℝ)
    (psv : List (List ℝ)) (obstacles : List (List ℝ)) :
    List ℝ × List ℝ × List ℝ :=
  genLoop d w x0 g time s psv obstacles (time.getLastD 0) 0 0 x0 0 0 time.length

/-- `np.std(v)`: population standard deviation. -/
noncomputable def stdOf (v : List ℝ) : ℝ :=
  Real.sqrt (((v.map (fun t => (t - v.sum / v.length) ^ 2)).sum) / v.length)

/-- `np.cumsum`, via a running accumulator. -/
noncomputable def cumsumFrom (acc : ℝ) : List ℝ → List ℝ
  | [] => []
  | y :: ys => (acc + y) :: cumsumFrom (acc + y) ys

/-- `np.cumsum(gain)`. -/
noncomputable def cumsum (l : List ℝ) : List ℝ := cumsumFrom 0 l

/-- Insert index `i` into a list of indices kept in descending order of
their `q`-scores. -/
noncomputable def insertDesc (q : List ℝ) (i : ℕ) : List ℕ → List ℕ
  | [] => [i]
  | j :: rest =>
      if q.getD j 0 < q.getD i 0 then i :: j :: rest
      else j :: insertDesc q i rest

/-- `np.argsort(Q)[::-1]`: the indices of `Q` sorted by descending score
(numpy's tie order is implementation-defined; this model fixes one). -/
noncomputable def argsortDesc (q : List ℝ) : List ℕ :=
  (List.range q.length).foldr (insertDesc q) []

/-- The data computed by one iteration of `adapt`'s `while` loop from the
current action parameters `a` (iteration counter `k` indexes the random
stream `noise`).  A draw of `np.random.normal(0, std)` is modelled as
`noise k i j * std`, which has exactly the support of the normal
distribution (and is exactly `0` when `std = 0`, as in numpy). -/
structure IterData where
  expl : List (List ℝ)
  actions : List (List ℝ)
  Q : List ℝ
  sortQ : List ℕ
  best : ℕ
  update : List ℝ

/-- One iteration of `adapt`: exploration noise scaled by
`np.std(psv[j]*a[j])`, candidate actions `a + e`, rollouts via `generate`,
scores `Q[i] = Σ_j reward(g, x[j,i], t[j], tau)`, elite indices
`np.argsort(Q)[::-1][:floor(samples*rate)]`, and the reward-weighted
update `Σ(elite e*Q) / Σ(elite Q)`. -/
noncomputable def iterOf (d : DMP) (x0 g : ℝ) (t s : List ℝ)
    (psv : List (List ℝ)) (samples : ℕ) (rate : ℝ)
    (noise : ℕ → ℕ → ℕ → ℝ) (k : ℕ) (a : List ℝ) : IterData :=
  let expl := (List.range samples).map (fun i =>
    (List.range d.ng).map (fun j =>
      noise k i j * stdOf ((psv.getD j []).map (· * a.getD j 0))))
  let actions := expl.map (fun e => vecAdd a e)
  let tau := t.getLastD 0
  let QL := (List.range samples).map (fun i =>
    ((List.range t.length).map (fun j =>
      reward g ((generate d (actions.getD i []) x0 g t s psv []).2.2.getD j 0)
        (t.getD j 0) tau (9 / 10) (1 / 100))).sum)
  let sortQ := (argsortDesc QL).take (Int.toNat ⌊(samples : ℝ) * rate⌋)
  let sumQy := (sortQ.map (fun i => QL.getD i 0)).sum
  let sumQx := (List.range d.ng).map (fun j =>
    (sortQ.map (fun i => (expl.getD i []).getD j 0 * QL.getD i 0)).sum)
  ⟨expl, actions, QL, sortQ, sortQ.headD 0, sumQx.map (· / sumQy)⟩

/-- What `adapt` returns, plus the ghost field `wAfter`: the content of
the caller's `w` buffer after the call.  In the source `a = w` aliases the
input array and `a += sumQ_x/sumQ_y` mutates it in place each iteration,
so the buffer ends up holding the final post-update action parameters. -/
structure AdaptResult where
  ddx : List ℝ
  dx : List ℝ
  x : List ℝ
  wStar : List ℝ
  trace : List ℝ
  wAfter : List ℝ

/-- The fuel-indexed `while not met_threshold` loop of `adapt`: each
iteration updates `a += sumQ_x/sumQ_y`, appends `Q[sort_Q[0]]` to `gain`,
and stops when `|x[-1, sort_Q[0]] - g| < 0.01`, returning the best
elite's rollout, its action vector, and `np.cumsum(gain)`.  `none` means
the loop has not terminated within `fuel` iterations. -/
noncomputable def adaptLoop (d : DMP) (x0 g : ℝ) (t s : List ℝ)
    (psv : List (List ℝ)) (samples : ℕ) (rate : ℝ)
    (noise : ℕ → ℕ → ℕ → ℝ) : ℕ → List ℝ → List ℝ → ℕ → Option AdaptResult
  | _, _, _, 0 => none
  | k, a, gain, fuel + 1 =>
    let it := iterOf d x0 g t s psv samples rate noise k a
    let a' := vecAdd a it.update
    let gain' := gain ++ [it.Q.getD it.best 0]
    let roll := generate d (it.actions.getD it.best []) x0 g t s psv []
    if |roll.2.2.getLastD 0 - g| < 1 / 100 then
      some ⟨roll.1, roll.2.1, roll.2.2, it.actions.getD it.best [],
            cumsum gain', a'⟩
    else adaptLoop d x0 g t s psv samples rate noise (k + 1) a' gain' fuel

/-- `adapt(w, x0, g, t, s, psv, samples, rate)`, starting the loop from
`a = w` with an empty `gain` list. -/
noncomputable def adapt (d : DMP) (w : List ℝ) (x0 g : ℝ) (t s : List ℝ)
    (psv : List (List ℝ)) (samples : ℕ) (rate : ℝ)
    (noise : ℕ → ℕ → ℕ → ℝ) (fuel : ℕ) : Option AdaptResult :=
  adaptLoop d x0 g t s psv samples rate noise 0 w [] fuel

/-- The returned `AdaptResult` is exactly what the final loop iteration
produced: for some iteration counter `k`, entry action parameters `a` and
previously accumulated `gain`, the returned sequences are the best
elite's full `generate` rollout, the returned weights are that elite's
action vector, and the trace is the cumulative sum of the per-iteration
best scores ending with this iteration's. -/
def FinalIterationWitness (d : DMP) (x0 g : ℝ) (t s : List ℝ)
    (psv : List (List ℝ)) (samples : ℕ) (rate : ℝ)
    (noise : ℕ → ℕ → ℕ → ℝ) (res : AdaptResult) : Prop :=
  ∃ k a gain,
    res.ddx = (generate d ((iterOf d x0 g t s psv samples rate noise k a).actions.getD
      (iterOf d x0 g t s psv samples rate noise k a).best []) x0 g t s psv []).1 ∧
    res.dx = (generate d ((iterOf d x0 g t s psv samples rate noise k a).actions.getD
      (iterOf d x0 g t s psv samples rate noise k a).best []) x0 g t s psv []).2.1 ∧
    res.x = (generate d ((iterOf d x0 g t s psv samples rate noise k a).actions.getD
      (iterOf d x0 g t s psv samples rate noise k a).best []) x0 g t s psv []).2.2 ∧
    res.wStar = (iterOf d x0 g t s psv samples rate noise k a).actions.getD
      (iterOf d x0 g t s psv samples rate noise k a).best [] ∧
    res.trace = cumsum (gain ++
      [(iterOf d x0 g t s psv samples rate noise k a).Q.getD
        (iterOf d x0 g t s psv samples rate noise k a).best 0])

/-- `wAfter` is what the caller's `w` buffer holds after `adapt`: the
original `w` with one in-place `+=` update per loop iteration (`n` is the
iteration count, which equals the length of the returned trace). -/
def InPlaceSum (w wAfter : List ℝ) (n : ℕ) : Prop :=
  ∃ us : List (List ℝ), wAfter = us.foldl vecAdd w ∧ us.length = n

/-- A concrete instance `DynamicMovementPrimitive(3, 1, False)`. -/
noncomputable def dmp3 : DMP := ⟨3, 1, false, false, 1200, 6.3662⟩

/-- A concrete instance `DynamicMovementPrimitive(4, 1, False)`. -/
noncomputable def dmp4 : DMP := ⟨4, 1, false, false, 1200, 6.3662⟩

/-- The all-zeros random stream. -/
noncomputable def zero3 : ℕ → ℕ → ℕ → ℝ := fun _ _ _ => 0

/-- The all-ones random stream. -/
noncomputable def one3 : ℕ → ℕ → ℕ → ℝ := fun _ _ _ => 1

/-- The claim's (C4) formula for the stabilization term `mod[i]`:
`b*(g-x0)*s[i]` when stabilization is enabled, else `0`. -/
noncomputable def specMod (d : DMP) (x s : List ℝ) (i : ℕ) : ℝ :=
  if d.stb then d.b * (x.getLastD 0 - x.headD 0) * s.getD i 0 else 0

/-- The claim's (C4) regression weight signal `sigma[i]`:
`(g-x0)*s[i]` when stabilization is enabled, else `s[i]`. -/
noncomputable def specSigma (d : DMP) (x s : List ℝ) (i : ℕ) : ℝ :=
  if d.stb then (x.getLastD 0 - x.headD 0) * s.getD i 0 else s.getD i 0

/-- The claim's (C4) target forcing value
`f_target[i] = tau^2*ddx[i] - a*(b*(g - x[i]) - tau*dx[i]) + mod[i]`,
with `g = x[-1]`, `tau = time[-1]`. -/
noncomputable def specFTarget (d : DMP) (x dx ddx time s : List ℝ) (i : ℕ) : ℝ :=
  time.getLastD 0 ^ 2 * ddx.getD i 0
    - d.a * (d.b * (x.getLastD 0 - x.getD i 0) - time.getLastD 0 * dx.getD i 0)
    + specMod d x s i

/-- The claim's (C4) weight row for a basis row `p`:
`(sigma . diag(p) . f_target) / (sigma . diag(p) . sigma)`, written with
`Finset.range` sums. -/
noncomputable def specWeightRow (d : DMP) (x dx ddx time s : List ℝ)
    (p : List ℝ) : ℝ :=
  (∑ k in Finset.range time.length,
      specSigma d x s k * p.getD k 0 * specFTarget d x dx ddx time s k) /
  (∑ k in Finset.range time.length,
      specSigma d x s k * p.getD k 0 * specSigma d x s k)


/-- The result of the concrete run `adapt(dmp4, [0], 0, 0, [1], [1],
[[1]], 1, 1)` with all exploration noise zero. -/
noncomputable def res0 : AdaptResult := ⟨[0], [0], [0], [0], [9 / 10], [0]⟩

/-- The single-iteration best score of the concrete run behind `res2`. -/
noncomputable def q2 : ℝ := (1 - 9 / 10) * Real.exp (-(1 / 2)) / 2 + 9 / 10

/-- The result of the concrete run `adapt(dmp4, [1], 0, 0, [1, 2], [1, 1],
[[3, 1]], 1, 1)` with unit exploration noise: the caller's weight buffer
ends up holding `[2]`, not the original `[1]`. -/
noncomputable def res2 : AdaptResult :=
  ⟨[1 / 2, -1], [1 / 2, -1 / 2], [1 / 2, 0], [2], [q2], [2]⟩

lemma getD_range_map (f : ℕ → ℝ) {n i : ℕ} (h : i < n) :
    ((List.range n).map f).getD i 0 = f i := by
  rw [List.getD_eq_getElem?_getD, List.getElem?_map, List.getElem?_range h]
  rfl

lemma sum_range_map (f : ℕ → ℝ) (n : ℕ) :
    ((List.range n).map f).sum = ∑ k in Finset.range n, f k := by
  induction n with
  | zero => simp
  | succ n ih =>
      rw [List.range_succ, List.map_append, List.sum_append,
        Finset.sum_range_succ, ih]
      simp

/-- C5: for a gain `a > 0` and a time vector of length `N ≥ 2`, `phase`
returns a length-`N` sequence with `s[i] = exp(-as_deg * i/(N-1))`,
`s[0] = 1`, all entries in `(0, 1]`, monotonically non-increasing. -/
theorem C5_phase_decay (d : DMP) (time : List ℝ) (i j : ℕ)
    (ha : 0 < d.a) (hN : 2 ≤ time.length)
    (hi : i < time.length) (hj : j < time.length) (hij : i ≤ j) :
    (phase d time).length = time.length ∧
    (phase d time).getD i 0 =
      Real.exp (-d.as_deg * ((i : ℝ) / ((time.length : ℝ) - 1))) ∧
    (phase d time).getD 0 0 = 1 ∧
    0 < (phase d time).getD i 0 ∧
    (phase d time).getD i 0 ≤ 1 ∧
    (phase d time).getD j 0 ≤ (phase d time).getD i 0 := by
  have hc : 0 < d.as_deg := by
    unfold DMP.as_deg; linarith
  have hden : (0 : ℝ) < (time.length : ℝ) - 1 := by
    have : (2 : ℝ) ≤ (time.length : ℝ) := by exact_mod_cast hN
    linarith
  have hfor : ∀ m : ℕ, m < time.length →
      (phase d time).getD m 0 =
        Real.exp (-d.as_deg * ((m : ℝ) / ((time.length : ℝ) - 1))) := by
    intro m hm
    unfold phase
    exact getD_range_map _ hm
  have h0 : 0 < time.length := by omega
  refine ⟨by simp [phase], hfor i hi, ?_, ?_, ?_, ?_⟩
  · rw [hfor 0 h0]
    norm_num
  · rw [hfor i hi]
    exact Real.exp_pos _
  · rw [hfor i hi]
    have hq : 0 ≤ (i : ℝ) / ((time.length : ℝ) - 1) :=
      div_nonneg (Nat.cast_nonneg i) (le_of_lt hden)
    have hexp : -d.as_deg * ((i : ℝ) / ((time.length : ℝ) - 1)) ≤ 0 := by
      have := mul_nonneg (le_of_lt hc) hq
      linarith
    calc Real.exp (-d.as_deg * ((i : ℝ) / ((time.length : ℝ) - 1)))
        ≤ Real.exp 0 := Real.exp_le_exp.mpr hexp
      _ = 1 := Real.exp_zero
  · rw [hfor i hi, hfor j hj]
    apply Real.exp_le_exp.mpr
    have hcast : (i : ℝ) ≤ (j : ℝ) := by exact_mod_cast hij
    have hij' : (i : ℝ) / ((time.length : ℝ) - 1) ≤
        (j : ℝ) / ((time.length : ℝ) - 1) :=
      (div_le_div_iff_of_pos_right hden).mpr hcast
    have := mul_le_mul_of_nonneg_left hij' (le_of_lt hc)
    linarith

/-- Witness for C5 at `a = 3`, `time = [0, 1]`, `i = 0`, `j = 1`. -/
theorem C5_phase_decay_witness :
    0 < dmp3.a ∧ 2 ≤ ([(0 : ℝ), 1]).length ∧
    0 < (phase dmp3 [(0 : ℝ), 1]).getD 0 0 ∧
    (phase dmp3 [(0 : ℝ), 1]).getD 1 0 ≤ (phase dmp3 [(0 : ℝ), 1]).getD 0 0 := by
  have ha : 0 < dmp3.a := by
    show (0 : ℝ) < 3
    norm_num
  have h := C5_phase_decay dmp3 [(0 : ℝ), 1] 0 1 ha (by decide) (by decide)
    (by decide) (by decide)
  exact ⟨ha, by decide, h.2.2.2.1, h.2.2.2.2.2⟩

/-- C7: `avoid_obstacles` returns the all-zero vector when either the
obstacle list is empty or the velocity magnitude is at most `0.00005`. -/
theorem C7_avoid_obstacles_zero (d : DMP) (x dx g : List ℝ)
    (obstacles : List (List ℝ))
    (h : obstacles = [] ∨ normE dx ≤ 0.00005) :
    avoid_obstacles d x dx g obstacles = x.map (fun _ => (0 : ℝ)) := by
  rcases h with h | h
  · rw [h]
    rfl
  · unfold avoid_obstacles
    induction obstacles with
    | nil => rfl
    | cons o os ih =>
        rw [List.foldl_cons]
        have hstep : obstStep d x dx g (x.map (fun _ => (0 : ℝ))) o =
            x.map (fun _ => (0 : ℝ)) := by
          unfold obstStep
          rw [if_neg (not_lt.mpr h)]
        rw [hstep]
        exact ih

/-- Witness for C7 with an empty obstacle list. -/
theorem C7_avoid_obstacles_zero_witness :
    avoid_obstacles dmp4 [1, 2, 3] [1, 1, 1] [0, 0, 0] [] =
      ([1, 2, 3] : List ℝ).map (fun _ => (0 : ℝ)) :=
  C7_avoid_obstacles_zero dmp4 [1, 2, 3] [1, 1, 1] [0, 0, 0] [] (Or.inl rfl)

/-- C10: every obstacle contributes one scalar `dphi`, broadcast onto all
components, so the repulsion returned by `avoid_obstacles` is a constant
vector: all its components are equal (and it is shaped like `x`). -/
theorem C10_avoid_obstacles_componentwise_constant (d : DMP)
    (x dx g : List ℝ) (obstacles : List (List ℝ)) :
    ∃ c : ℝ, avoid_obstacles d x dx g obstacles = x.map (fun _ => c) := by
  unfold avoid_obstacles
  suffices hgen : ∀ c : ℝ, ∃ c2 : ℝ,
      obstacles.foldl (obstStep d x dx g) (x.map (fun _ => c)) =
        x.map (fun _ => c2) from hgen 0
  induction obstacles with
  | nil => exact fun c => ⟨c, rfl⟩
  | cons o os ih =>
      intro c
      rw [List.foldl_cons]
      unfold obstStep
      by_cases hv : normE dx > 0.00005
      · rw [if_pos hv]
        simp only [List.map_map]
        exact ih _
      · rw [if_neg hv]
        exact ih c

/-- Counterexample to C8 as stated: with the default `w = 0.9` and
`threshold = 0.01` but a small duration `tau = 1/100`, the mid-trajectory
branch (time `2`, outside the threshold) returns `10`, which is *larger*
than the end-branch reward `0.9` (time `1/100`, inside the threshold),
at identical distances `‖goal - position‖ = 0`. -/
theorem C8_counterexample :
    |(1 : ℝ) / 100 - 1 / 100| < 1 / 100 ∧
    ¬ |(2 : ℝ) - 1 / 100| < 1 / 100 ∧
    reward 0 0 (1 / 100) (1 / 100) (9 / 10) (1 / 100) <
      reward 0 0 2 (1 / 100) (9 / 10) (1 / 100) := by
  have habs : |(2 : ℝ) - 1 / 100| = 199 / 100 := by
    rw [abs_of_pos] <;> norm_num
  refine ⟨by norm_num, by rw [habs]; norm_num, ?_⟩
  have hend : reward 0 0 (1 / 100) (1 / 100) (9 / 10) (1 / 100) = 9 / 10 := by
    unfold reward
    rw [if_pos (by norm_num)]
    norm_num [Real.sqrt_zero]
  have hmid : reward 0 0 2 (1 / 100) (9 / 10) (1 / 100) = 10 := by
    unfold reward
    rw [if_neg (by rw [habs]; norm_num)]
    norm_num [Real.sqrt_zero]
  rw [hend, hmid]
  norm_num

/-- C8 amended: for identical distances and the default `w = 0.9`,
`threshold = 0.01`, the end-of-trajectory branch reward exceeds the
mid-trajectory branch reward provided `tau > 1/9` (so that the factor
`0.9` beats `0.1/tau`); the counterexample above shows the unrestricted
claim fails for small `tau`. -/
theorem C8_end_branch_larger (g1 p1 g2 p2 t1 t2 tau : ℝ)
    (hd : |g1 - p1| = |g2 - p2|)
    (h1 : |t1 - tau| < 1 / 100) (h2 : ¬ |t2 - tau| < 1 / 100)
    (htau : 1 / 9 < tau) :
    reward g2 p2 t2 tau (9 / 10) (1 / 100) <
      reward g1 p1 t1 tau (9 / 10) (1 / 100) := by
  unfold reward
  rw [if_pos h1, if_neg h2]
  have e2 : Real.sqrt ((g2 - p2) * (g2 - p2)) = |g2 - p2| :=
    Real.sqrt_mul_self_eq_abs _
  have e1 : Real.sqrt ((g1 - p1) * (g1 - p1)) = |g1 - p1| :=
    Real.sqrt_mul_self_eq_abs _
  rw [e1, e2, ← hd]
  have htau0 : (0 : ℝ) < tau := by linarith
  rw [div_lt_iff₀ htau0]
  have hE : 0 < Real.exp (-|g1 - p1|) := Real.exp_pos _
  nlinarith

/-- Witness for C8 amended at distance `0`, `t1 = 1`, `t2 = 3`, `tau = 1`. -/
theorem C8_end_branch_larger_witness :
    |(0 : ℝ) - 0| = |(0 : ℝ) - 0| ∧ |(1 : ℝ) - 1| < 1 / 100 ∧
    ¬ |(3 : ℝ) - 1| < 1 / 100 ∧ (1 : ℝ) / 9 < 1 ∧
    reward 0 0 3 1 (9 / 10) (1 / 100) < reward 0 0 1 1 (9 / 10) (1 / 100) :=
  ⟨rfl, by norm_num, by norm_num, by norm_num,
    C8_end_branch_larger 0 0 0 0 1 3 1 rfl (by norm_num) (by norm_num)
      (by norm_num)⟩

/-- Counterexample to C6 as stated: with `ng = 1` the center array
`c = np.linspace(min(s), max(s), 1)` has a single element, so the spacing
computation `d = c[1] - c[0]` raises `IndexError` and no basis matrix is
returned at all. -/
theorem C6_counterexample :
    distributions dmp4 [1, 1 / 2] 1 = none := by
  unfold distributions linspaceL
  simp [List.min?, List.max?, dmp4]

/-- C6 amended: for `ng = 1`, `distributions` never returns a basis
matrix: the access `c[1]` on the one-element `linspace` center array
fails (`IndexError`), for every phase signal and bandwidth. -/
theorem C6_single_gaussian_fails (d : DMP) (s : List ℝ) (h : ℝ)
    (hng : d.ng = 1) :
    distributions d s h = none := by
  unfold distributions
  rcases hm : s.min? with _ | lo
  · rfl
  · rcases hM : s.max? with _ | hi
    · rfl
    · simp only [hng, linspaceL, if_pos rfl]
      rfl

/-- Witness for C6 amended at a second concrete input. -/
theorem C6_single_gaussian_fails_witness :
    distributions ⟨2, 1, true, false, 5, 7⟩ [2, 1] 3 = none :=
  C6_single_gaussian_fails ⟨2, 1, true, false, 5, 7⟩ [2, 1] 3 rfl


/-- C4: `imitate` returns exactly the claimed target forcing sequence and,
for each basis row of `psv`, the claimed locally-weighted regression
weight. -/
theorem C4_imitate_formulas (d : DMP) (x dx ddx time s : List ℝ)
    (psv : List (List ℝ)) (i : ℕ)
    (hx : x.length = time.length) (hdx : dx.length = time.length)
    (hddx : ddx.length = time.length) (hi : i < time.length) :
    (imitate d x dx ddx time s psv).1.getD i 0 =
      specFTarget d x dx ddx time s i ∧
    (imitate d x dx ddx time s psv).2 =
      psv.map (specWeightRow d x dx ddx time s) := by
  have hft : ∀ m : ℕ, m < time.length →
      (imitate d x dx ddx time s psv).1.getD m 0 =
        specFTarget d x dx ddx time s m := by
    intro m hm
    unfold imitate specFTarget specMod
    exact getD_range_map _ hm
  have hsg : ∀ m : ℕ, m < time.length →
      ((List.range time.length).map (fun k =>
        if d.stb then (x.getLastD 0 - x.headD 0) * s.getD k 0
        else s.getD k 0)).getD m 0 = specSigma d x s m := by
    intro m hm
    unfold specSigma
    exact getD_range_map _ hm
  have hftraw : ∀ m : ℕ, m < time.length →
      ((List.range time.length).map (fun k =>
        time.getLastD 0 ^ 2 * ddx.getD k 0
          - d.a * (d.b * (x.getLastD 0 - x.getD k 0)
              - time.getLastD 0 * dx.getD k 0)
          + (if d.stb then d.b * (x.getLastD 0 - x.headD 0) * s.getD k 0
             else 0))).getD m 0 = specFTarget d x dx ddx time s m := by
    intro m hm
    unfold specFTarget specMod
    exact getD_range_map _ hm
  refine ⟨hft i hi, ?_⟩
  unfold imitate
  apply List.map_congr_left
  intro p _
  congr 1
  · rw [sum_range_map]
    apply Finset.sum_congr rfl
    intro k hk
    have hk' : k < time.length := Finset.mem_range.mp hk
    rw [hsg k hk', hftraw k hk']
  · rw [sum_range_map]
    apply Finset.sum_congr rfl
    intro k hk
    have hk' : k < time.length := Finset.mem_range.mp hk
    rw [hsg k hk']

/-- Witness for C4 at a concrete one-sample trajectory. -/
theorem C4_imitate_formulas_witness :
    (imitate dmp4 [2] [0] [0] [1] [1] [[1]]).1.getD 0 0 =
      specFTarget dmp4 [2] [0] [0] [1] [1] 0 ∧
    (imitate dmp4 [2] [0] [0] [1] [1] [[1]]).2 =
      [[(1 : ℝ)]].map (specWeightRow dmp4 [2] [0] [0] [1] [1]) :=
  C4_imitate_formulas dmp4 [2] [0] [0] [1] [1] [[1]] 0 rfl rfl rfl
    (by decide)

lemma pSumAt_zero (d : DMP) (w : List ℝ) (psv : List (List ℝ)) (i : ℕ)
    (hw : ∀ j, w.getD j 0 = 0) : pSumAt d w psv i = 0 := by
  unfold pSumAt
  apply List.sum_eq_zero
  intro y hy
  rcases List.mem_map.mp hy with ⟨j, _, rfl⟩
  rw [hw j, mul_zero]

/-- With zero weights, stabilization and obstacles off, each stored
acceleration of `genLoop` satisfies the point-attractor equation with
respect to the state *entering* that Euler step (the previous stored
position/velocity, or the initial state for the first sample). -/
lemma genLoop_attractor (d : DMP) (w : List ℝ) (x0 g : ℝ) (time s : List ℝ)
    (psv obstacles : List (List ℝ)) (tau : ℝ)
    (hstb : d.stb = false) (hobs : d.obs = false)
    (hw : ∀ j, w.getD j 0 = 0) (htau : tau ≠ 0) :
    ∀ (k i : ℕ) (dxr xr xm dxm : ℝ) (m : ℕ), m < k →
      tau ^ 2 *
        (genLoop d w x0 g time s psv obstacles tau i dxr xr xm dxm k).1.getD m 0 =
      d.a * (d.b * (g -
          (xr :: (genLoop d w x0 g time s psv obstacles tau i dxr xr xm dxm
            k).2.2).getD m 0)
        - tau * (dxr :: (genLoop d w x0 g time s psv obstacles tau i dxr xr xm
            dxm k).2.1).getD m 0) := by
  intro k
  induction k with
  | zero =>
      intro i dxr xr xm dxm m hm
      exact absurd hm (Nat.not_lt_zero m)
  | succ k ih =>
      intro i dxr xr xm dxm m hm
      cases m with
      | zero =>
          simp only [genLoop, hstb, hobs, Bool.false_eq_true, if_false,
            pSumAt_zero d w psv i hw, zero_div, zero_mul, add_zero,
            List.getD_cons_zero]
          rw [mul_comm, div_mul_cancel₀ _ (pow_ne_zero 2 htau)]
      | succ m =>
          have hm' : m < k := by omega
          simp only [genLoop, List.getD_cons_succ]
          exact ih (i + 1) _ _ _ _ m hm'

/-- Counterexample to C3 as stated: at `a = 4`, `w = [0]`, `x0 = 0`,
`g = 1`, `time = [1, 2]`, `s = [1, 1]`, `psv = [[1, 1]]` the first
returned sample violates `tau^2*ddx[0] = a*(b*(g - x[0]) - tau*dx[0])`:
the left side is `4` while the right side is `-8`, because `ddx[i]` is
computed from the state *before* the Euler update while `x[i]`, `dx[i]`
store the post-update state. -/
theorem C3_counterexample :
    ¬ (([(1 : ℝ), 2]).getLastD 0 ^ 2 *
        (generate dmp4 [0] 0 1 [1, 2] [1, 1] [[1, 1]] []).1.getD 0 0 =
      dmp4.a * (dmp4.b *
          (1 - (generate dmp4 [0] 0 1 [1, 2] [1, 1] [[1, 1]] []).2.2.getD 0 0)
        - ([(1 : ℝ), 2]).getLastD 0 *
          (generate dmp4 [0] 0 1 [1, 2] [1, 1] [[1, 1]] []).2.1.getD 0 0)) := by
  have hgen : generate dmp4 [0] 0 1 [1, 2] [1, 1] [[1, 1]] [] =
      ([1, -2], [1, -1], [1, 0]) := by
    unfold generate
    simp [genLoop, pSumAt, pDivAt, dmp4, DMP.b]
    norm_num
  rw [hgen]
  simp [dmp4, DMP.b]
  norm_num

/-- C3 corrected: with all-zero weights, stabilization and obstacle
avoidance disabled (and a nonzero duration `tau = time[-1]`, with every
basis normalizer nonzero as the claim's data implies), the sequences
returned by `generate` satisfy the point-attractor equation relating
`ddx[i]` to the *pre-step* state: `x[i-1]`, `dx[i-1]` for `i > 0`, and
`x0`, `0` for `i = 0` — not to `x[i]`, `dx[i]` as the claim states. -/
theorem C3_generate_attractor (d : DMP) (w : List ℝ) (x0 g : ℝ)
    (time s : List ℝ) (psv : List (List ℝ)) (i : ℕ)
    (hstb : d.stb = false) (hobs : d.obs = false)
    (hw : ∀ j, w.getD j 0 = 0) (htau : time.getLastD 0 ≠ 0)
    (hdiv : ∀ m, m < time.length → pDivAt d psv m ≠ 0)
    (hi : i < time.length) :
    time.getLastD 0 ^ 2 * (generate d w x0 g time s psv []).1.getD i 0 =
      d.a * (d.b * (g - (if i = 0 then x0
          else (generate d w x0 g time s psv []).2.2.getD (i - 1) 0))
        - time.getLastD 0 * (if i = 0 then 0
          else (generate d w x0 g time s psv []).2.1.getD (i - 1) 0)) := by
  unfold generate
  have h := genLoop_attractor d w x0 g time s psv [] (time.getLastD 0)
    hstb hobs hw htau time.length 0 0 x0 0 0 i hi
  cases i with
  | zero => simpa using h
  | succ m => simpa [List.getD_cons_succ] using h

/-- Witness for C3 corrected at the counterexample's inputs, `i = 0`. -/
theorem C3_generate_attractor_witness :
    ([(1 : ℝ), 2]).getLastD 0 ^ 2 *
        (generate dmp4 [0] 0 1 [1, 2] [1, 1] [[1, 1]] []).1.getD 0 0 =
      dmp4.a * (dmp4.b * (1 - (if (0 : ℕ) = 0 then 0
          else (generate dmp4 [0] 0 1 [1, 2] [1, 1] [[1, 1]] []).2.2.getD
            (0 - 1) 0))
        - ([(1 : ℝ), 2]).getLastD 0 * (if (0 : ℕ) = 0 then 0
          else (generate dmp4 [0] 0 1 [1, 2] [1, 1] [[1, 1]] []).2.1.getD
            (0 - 1) 0)) := by
  have hw : ∀ j : ℕ, ([(0 : ℝ)]).getD j 0 = 0 := by
    intro j
    cases j with
    | zero => rfl
    | succ j => cases j <;> rfl
  have hdiv : ∀ m, m < ([(1 : ℝ), 2]).length →
      pDivAt dmp4 [[1, 1]] m ≠ 0 := by
    intro m hm
    have hm2 : m < 2 := by simpa using hm
    unfold pDivAt
    simp only [dmp4]
    interval_cases m <;> norm_num [List.range_succ]
  have htau : ([(1 : ℝ), 2]).getLastD 0 ≠ 0 := by
    norm_num [List.getLastD]
  exact C3_generate_attractor dmp4 [0] 0 1 [1, 2] [1, 1] [[1, 1]] 0
    rfl rfl hw htau hdiv (by decide)

lemma adaptLoop_final (d : DMP) (x0 g : ℝ) (t s : List ℝ)
    (psv : List (List ℝ)) (samples : ℕ) (rate : ℝ)
    (noise : ℕ → ℕ → ℕ → ℝ) :
    ∀ (fuel k : ℕ) (a gain : List ℝ) (res : AdaptResult),
      adaptLoop d x0 g t s psv samples rate noise k a gain fuel = some res →
      |res.x.getLastD 0 - g| < 1 / 100 ∧
      FinalIterationWitness d x0 g t s psv samples rate noise res := by
  intro fuel
  induction fuel with
  | zero =>
      intro k a gain res h
      exact absurd h (by simp [adaptLoop])
  | succ fuel ih =>
      intro k a gain res h
      simp only [adaptLoop] at h
      split at h
      case isTrue hc =>
          obtain rfl := (Option.some.inj h).symm
          exact ⟨hc, k, a, gain, rfl, rfl, rfl, rfl, rfl⟩
      case isFalse hc =>
          exact ih _ _ _ _ h

/-- C1: whenever `adapt` terminates with a result, the final position of
the returned trajectory is within `0.01` of the goal, and the returned
sequences, weight vector and trace are the final iteration's best elite's
full `generate` rollout, its action vector, and the cumulative
best-reward trace. -/
theorem C1_adapt_returns_goal_reaching_best_elite (d : DMP) (w : List ℝ)
    (x0 g : ℝ) (t s : List ℝ) (psv : List (List ℝ)) (samples : ℕ)
    (rate : ℝ) (noise : ℕ → ℕ → ℕ → ℝ) (fuel : ℕ) (res : AdaptResult)
    (h : adapt d w x0 g t s psv samples rate noise fuel = some res) :
    |res.x.getLastD 0 - g| < 1 / 100 ∧
    FinalIterationWitness d x0 g t s psv samples rate noise res := by
  unfold adapt at h
  exact adaptLoop_final d x0 g t s psv samples rate noise fuel 0 w [] res h

lemma reward_nonneg (g p tq tau : ℝ) (htau : 0 < tau) :
    0 ≤ reward g p tq tau (9 / 10) (1 / 100) := by
  unfold reward
  split
  · positivity
  · positivity

lemma getD_nonneg (l : List ℝ) (h : ∀ y ∈ l, 0 ≤ y) :
    ∀ n : ℕ, 0 ≤ l.getD n 0 := by
  induction l with
  | nil => intro n; simp
  | cons y ys ih =>
      intro n
      cases n with
      | zero => exact h y (List.mem_cons_self y ys)
      | succ n =>
          rw [List.getD_cons_succ]
          exact ih (fun z hz => h z (List.mem_cons_of_mem _ hz)) n

lemma iterOf_Q_nonneg (d : DMP) (x0 g : ℝ) (t s : List ℝ)
    (psv : List (List ℝ)) (samples : ℕ) (rate : ℝ)
    (noise : ℕ → ℕ → ℕ → ℝ) (k : ℕ) (a : List ℝ)
    (htau : 0 < t.getLastD 0) :
    ∀ y ∈ (iterOf d x0 g t s psv samples rate noise k a).Q, 0 ≤ y := by
  intro y hy
  simp only [iterOf] at hy
  rcases List.mem_map.mp hy with ⟨i, _, rfl⟩
  apply List.sum_nonneg
  intro z hz
  rcases List.mem_map.mp hz with ⟨j, _, rfl⟩
  exact reward_nonneg _ _ _ _ htau

lemma cumsumFrom_head_le (acc : ℝ) (l : List ℝ) (h : ∀ y ∈ l, 0 ≤ y) :
    ∀ b ∈ (cumsumFrom acc l).head?, acc ≤ b := by
  cases l with
  | nil => simp [cumsumFrom]
  | cons y ys =>
      simp only [cumsumFrom, List.head?_cons, Option.mem_def,
        Option.some.injEq]
      rintro b rfl
      have := h y (List.mem_cons_self y ys)
      linarith

lemma chain_cumsumFrom (l : List ℝ) :
    ∀ acc : ℝ, (∀ y ∈ l, 0 ≤ y) →
      List.Chain' (· ≤ ·) (cumsumFrom acc l) := by
  induction l with
  | nil => intro acc _; simp [cumsumFrom]
  | cons y ys ih =>
      intro acc h
      rw [cumsumFrom]
      apply List.chain'_cons'.mpr
      exact ⟨cumsumFrom_head_le (acc + y) ys
          (fun z hz => h z (List.mem_cons_of_mem _ hz)),
        ih (acc + y) (fun z hz => h z (List.mem_cons_of_mem _ hz))⟩

lemma adaptLoop_trace_chain (d : DMP) (x0 g : ℝ) (t s : List ℝ)
    (psv : List (List ℝ)) (samples : ℕ) (rate : ℝ)
    (noise : ℕ → ℕ → ℕ → ℝ) (htau : 0 < t.getLastD 0) :
    ∀ (fuel k : ℕ) (a gain : List ℝ) (res : AdaptResult),
      (∀ y ∈ gain, 0 ≤ y) →
      adaptLoop d x0 g t s psv samples rate noise k a gain fuel = some res →
      List.Chain' (· ≤ ·) res.trace := by
  intro fuel
  induction fuel with
  | zero =>
      intro k a gain res _ h
      exact absurd h (by simp [adaptLoop])
  | succ fuel ih =>
      intro k a gain res hgain h
      simp only [adaptLoop] at h
      have hgain' : ∀ y ∈ gain ++
          [(iterOf d x0 g t s psv samples rate noise k a).Q.getD
            (iterOf d x0 g t s psv samples rate noise k a).best 0], 0 ≤ y := by
        intro y hy
        rcases List.mem_append.mp hy with hy | hy
        · exact hgain y hy
        · rcases List.mem_singleton.mp hy with rfl
          exact getD_nonneg _
            (iterOf_Q_nonneg d x0 g t s psv samples rate noise k a htau) _
      split at h
      case isTrue hc =>
          obtain rfl := (Option.some.inj h).symm
          exact chain_cumsumFrom _ 0 hgain'
      case isFalse hc =>
          exact ih _ _ _ _ hgain' h

/-- C9: with a positive duration `tau = t[-1]`, `reward` only returns
non-negative values (with the defaults `w = 0.9`, `threshold = 0.01`
used by `adapt`), and every terminating run of `adapt` returns a
monotonically non-decreasing cumulative reward trace. -/
theorem C9_trace_monotone (d : DMP) (w : List ℝ) (x0 g : ℝ)
    (t s : List ℝ) (psv : List (List ℝ)) (samples : ℕ) (rate : ℝ)
    (noise : ℕ → ℕ → ℕ → ℝ) (fuel : ℕ) (res : AdaptResult) (p tq : ℝ)
    (htau : 0 < t.getLastD 0)
    (h : adapt d w x0 g t s psv samples rate noise fuel = some res) :
    0 ≤ reward g p tq (t.getLastD 0) (9 / 10) (1 / 100) ∧
    List.Chain' (· ≤ ·) res.trace := by
  refine ⟨reward_nonneg _ _ _ _ htau, ?_⟩
  unfold adapt at h
  exact adaptLoop_trace_chain d x0 g t s psv samples rate noise htau
    fuel 0 w [] res (by simp) h

lemma cumsumFrom_length (l : List ℝ) :
    ∀ acc : ℝ, (cumsumFrom acc l).length = l.length := by
  induction l with
  | nil => intro acc; rfl
  | cons y ys ih => intro acc; simp [cumsumFrom, ih]

lemma adaptLoop_wAfter (d : DMP) (x0 g : ℝ) (t s : List ℝ)
    (psv : List (List ℝ)) (samples : ℕ) (rate : ℝ)
    (noise : ℕ → ℕ → ℕ → ℝ) :
    ∀ (fuel k : ℕ) (a gain : List ℝ) (res : AdaptResult),
      adaptLoop d x0 g t s psv samples rate noise k a gain fuel = some res →
      ∃ us : List (List ℝ), res.wAfter = us.foldl vecAdd a ∧
        gain.length + us.length = res.trace.length := by
  intro fuel
  induction fuel with
  | zero =>
      intro k a gain res h
      exact absurd h (by simp [adaptLoop])
  | succ fuel ih =>
      intro k a gain res h
      simp only [adaptLoop] at h
      split at h
      case isTrue hc =>
          obtain rfl := (Option.some.inj h).symm
          refine ⟨[(iterOf d x0 g t s psv samples rate noise k a).update],
            rfl, ?_⟩
          simp [cumsum, cumsumFrom_length]
      case isFalse hc =>
          obtain ⟨us, h1, h2⟩ := ih _ _ _ _ h
          refine ⟨(iterOf d x0 g t s psv samples rate noise k a).update :: us,
            h1, ?_⟩
          simp only [List.length_append, List.length_cons,
            List.length_nil] at h2 ⊢
          omega

/-- C2 corrected, adapt part: `a = w` aliases the caller's array and
`a += sumQ_x/sumQ_y` mutates it in place, so after a terminating call the
`w` buffer holds the original weights plus one accumulated reward-weighted
update per iteration (`InPlaceSum`), not its original value. -/
theorem C2_adapt_updates_w_in_place (d : DMP) (w : List ℝ) (x0 g : ℝ)
    (t s : List ℝ) (psv : List (List ℝ)) (samples : ℕ) (rate : ℝ)
    (noise : ℕ → ℕ → ℕ → ℝ) (fuel : ℕ) (res : AdaptResult)
    (h : adapt d w x0 g t s psv samples rate noise fuel = some res) :
    InPlaceSum w res.wAfter res.trace.length := by
  unfold adapt at h
  obtain ⟨us, h1, h2⟩ :=
    adaptLoop_wAfter d x0 g t s psv samples rate noise fuel 0 w [] res h
  exact ⟨us, h1, by simpa using h2⟩

lemma reward_at_goal (tq tau : ℝ) (h : |tq - tau| < 1 / 100) :
    reward 0 0 tq tau (9 / 10) (1 / 100) = 9 / 10 := by
  unfold reward
  rw [if_pos h]
  norm_num

lemma dmp4_ng : dmp4.ng = 1 := rfl

lemma gen_run0 : generate dmp4 [0] 0 0 [1] [1] [[1]] [] = ([0], [0], [0]) := by
  unfold generate
  simp [genLoop, pSumAt, pDivAt, dmp4, DMP.b]

lemma iter_run0 : iterOf dmp4 0 0 [1] [1] [[1]] 1 1 zero3 0 [0] =
    ⟨[[0]], [[0]], [9 / 10], [0], 0, [0]⟩ := by
  unfold iterOf
  norm_num [zero3, dmp4_ng, vecAdd, argsortDesc, insertDesc, stdOf, gen_run0,
    reward_at_goal 1 1 (by norm_num), List.getLastD_cons, List.getLastD_nil,
    List.range_succ]

lemma adapt_run0 : adapt dmp4 [0] 0 0 [1] [1] [[1]] 1 1 zero3 1 = some res0 := by
  unfold adapt
  norm_num [adaptLoop, iter_run0, gen_run0, vecAdd, cumsum, cumsumFrom,
    res0, List.getLastD_cons, List.getLastD_nil]

/-- Witness for C1 on the concrete terminating run `adapt_run0`. -/
theorem C1_adapt_returns_goal_reaching_best_elite_witness :
    |res0.x.getLastD 0 - 0| < 1 / 100 ∧
    FinalIterationWitness dmp4 0 0 [1] [1] [[1]] 1 1 zero3 res0 :=
  C1_adapt_returns_goal_reaching_best_elite dmp4 [0] 0 0 [1] [1] [[1]] 1 1
    zero3 1 res0 adapt_run0

/-- Witness for C9 on the concrete terminating run `adapt_run0`. -/
theorem C9_trace_monotone_witness :
    0 ≤ reward 0 5 7 (([(1 : ℝ)]).getLastD 0) (9 / 10) (1 / 100) ∧
    List.Chain' (· ≤ ·) res0.trace :=
  C9_trace_monotone dmp4 [0] 0 0 [1] [1] [[1]] 1 1 zero3 1 res0 5 7
    (by norm_num [List.getLastD_cons, List.getLastD_nil]) adapt_run0

/-- Witness for C2 corrected on the concrete terminating run `adapt_run0`. -/
theorem C2_adapt_updates_w_in_place_witness :
    InPlaceSum [0] res0.wAfter res0.trace.length :=
  C2_adapt_updates_w_in_place dmp4 [0] 0 0 [1] [1] [[1]] 1 1 zero3 1 res0
    adapt_run0

lemma std31 : stdOf [(3 : ℝ), 1] = 1 := by
  unfold stdOf
  norm_num [Real.sqrt_one]

lemma gen_run2 : generate dmp4 [2] 0 0 [1, 2] [1, 1] [[3, 1]] [] =
    ([1 / 2, -1], [1 / 2, -1 / 2], [1 / 2, 0]) := by
  unfold generate
  simp [genLoop, pSumAt, pDivAt, dmp4, DMP.b, List.range_succ]
  norm_num

lemma reward_mid_run2 : reward 0 (1 / 2) 1 2 (9 / 10) (1 / 100) =
    (1 - 9 / 10) * Real.exp (-(1 / 2)) / 2 := by
  have hc : ¬ |(1 : ℝ) - 2| < 1 / 100 := by
    have habs : |(1 : ℝ) - 2| = 1 := by
      rw [show (1 : ℝ) - 2 = -1 by norm_num, abs_neg, abs_one]
    rw [habs]
    norm_num
  have hs : Real.sqrt (((0 : ℝ) - 1 / 2) * (0 - 1 / 2)) = 1 / 2 := by
    rw [show ((0 : ℝ) - 1 / 2) * (0 - 1 / 2) = (1 / 2) ^ 2 by norm_num]
    exact Real.sqrt_sq (by norm_num)
  unfold reward
  rw [if_neg hc, hs]

lemma q2_pos : 0 < q2 := by
  unfold q2
  positivity

lemma iter_run2 : iterOf dmp4 0 0 [1, 2] [1, 1] [[3, 1]] 1 1 one3 0 [1] =
    ⟨[[1]], [[2]], [q2], [0], 0, [1]⟩ := by
  unfold iterOf
  norm_num [one3, dmp4_ng, vecAdd, argsortDesc, insertDesc, std31, gen_run2,
    reward_at_goal 2 2 (by norm_num), reward_mid_run2, q2,
    List.getLastD_cons, List.getLastD_nil, List.range_succ]
  exact div_self (by positivity)

lemma adapt_run2 : adapt dmp4 [1] 0 0 [1, 2] [1, 1] [[3, 1]] 1 1 one3 1 =
    some res2 := by
  unfold adapt
  norm_num [adaptLoop, iter_run2, gen_run2, vecAdd, cumsum, cumsumFrom,
    res2, List.getLastD_cons, List.getLastD_nil]

/-- Counterexample to C2 as stated: on the concrete run `adapt_run2` the
caller's weight buffer `w = [1]` is mutated in place by `a = w;
a += sumQ_x/sumQ_y` and holds `[2]` after the call. -/
theorem C2_counterexample :
    (adapt dmp4 [1] 0 0 [1, 2] [1, 1] [[3, 1]] 1 1 one3 1).map
      AdaptResult.wAfter = some [2] ∧ ¬ ((2 : ℝ) = 1) :=
  ⟨by rw [adapt_run2]; rfl, by norm_num⟩

end Pyrdmp
